import Mathlib

/-!
# Verification of the chiikawa-monitor reconciliation engine

Shallow embedding of the product change-detection and reconciliation core of
the repository (src/chiikawa_monitor.py, src/chiikawa_bot.py), together with
theorems settling the specification claims.

Modelling conventions:
* Instants (`datetime.now(TW_TIMEZONE)` values stored in the `date`/`time`/
  `last_seen` fields) are modelled as natural numbers counting minutes;
  `midnightOf` is `datetime.replace(hour=0, minute=0, ...)` and day-based
  retention cutoffs subtract multiples of `minutesPerDay`.
* Calendar dates extracted from restock tags are modelled as the natural
  number `y*10000 + m*100 + d`; on dates whose month and day are in range
  this encoding is strictly monotone in the calendar order.  The source
  builds each tag's datetime as `datetime(y, m, d, tzinfo=TW_TIMEZONE)`,
  which pytz resolves to the zone's first transition — LMT, +08:06 for
  Asia/Taipei — while `current_date` comes from
  `datetime.now(TW_TIMEZONE).replace(hour=0, ...)` and carries the proper
  CST +08:00.  Aware datetimes compare by instant, so a tag's midnight sits
  6 minutes before the same day's `current_date`:
  `resale_date >= current_date` holds exactly when the tag's calendar date
  is strictly after today's, and that strict comparison is what the model
  uses.  Among the tag dates themselves (all carrying +08:06) `min` is the
  plain calendar minimum.
* The MongoDB collections (`products`, `history`, `new`, `delisted`,
  `resale`) are modelled as lists of records; `insert_one` appends,
  `delete_many` filters, `UpdateMany`/`UpdateOne`-with-upsert map or append.
* Network effects are inputs: the three verification fetches of
  `check_updates` are passed as product lists, the per-URL HEAD probe
  (`check_product_url`) as a boolean-valued function, and the paginated
  responses consumed by `fetch_products` as a list of per-page results.
-/

namespace Chiikawa

/-- Placeholder image constant used throughout the source. -/
def defaultImageUrl : String :=
  "https://chiikawamarket.jp/cdn/shop/files/chiikawa_logo_144x.png"

def minutesPerDay : Nat := 1440

/-- `datetime.now(TW_TIMEZONE).replace(hour=0, minute=0, second=0, microsecond=0)`. -/
def midnightOf (now : Nat) : Nat := now / minutesPerDay * minutesPerDay

/-- Event type of a history record: `'new'` or `'delisted'`. -/
inductive EvType
  | new
  | delisted
deriving DecidableEq

/-- One catalog item as stored in the `products` snapshot collection
(built in `fetch_products`, chiikawa_monitor.py lines 273-281). -/
structure Product where
  url : String
  name : String
  price : Int
  available : Bool
  tags : List String
  image_url : String
  last_seen : Nat
deriving DecidableEq

/-- A history record as written to the `history` / `new` / `delisted`
collections.  Fields that only some writers set are `Option`s. -/
structure HistoryEvent where
  date : Nat
  type : EvType
  name : String
  url : String
  image_url : Option String
  price : Option Int
  available : Option Bool
  tags : Option (List String)
  is_restock : Option Bool
  time : Nat
deriving DecidableEq

/-- A record of the `resale` collection, upserted by `process_resale_items`. -/
structure RestockEntry where
  url : String
  name : String
  price : Int
  available : Bool
  tags : List String
  resale_tags : List String
  next_resale_date : Nat
  last_updated : Nat
  detected_date : Nat
  image_url : String
deriving DecidableEq

/-- The five persistent collections of the monitor's MongoDB database. -/
structure DB where
  products : List Product
  history : List HistoryEvent
  new : List HistoryEvent
  delisted : List HistoryEvent
  resale : List RestockEntry
deriving DecidableEq

/-! ## Restock tag parsing (`process_resale_items`, chiikawa_monitor.py 512-550) -/

/-- `pre` is an initial segment of `s` (character lists). -/
def listIsPref : List Char → List Char → Bool
  | [], _ => true
  | _ :: _, [] => false
  | a :: as, b :: bs => a == b && listIsPref as bs

/-- `tag.startswith('RE2025') and len(tag) >= 10` — the filter selecting
restock-tag candidates (chiikawa_monitor.py lines 517-518). -/
def isResaleTag (tag : String) : Bool :=
  listIsPref "RE2025".data tag.data && decide (10 ≤ tag.data.length)

/-- All-digit string to number (`int(...)` on the digit slices of the
tag).  Python's `int` additionally tolerates surrounding whitespace, a
sign, and Unicode digits; the model restricts to plain ASCII digit runs,
the only shape a date-coded tag slice can have. -/
def digitsToNat : List Char → Option Nat
  | [] => none
  | cs =>
    if cs.all Char.isDigit then
      some (cs.foldl (fun a c => a * 10 + (c.toNat - 48)) 0)
    else none

def isLeapYear (y : Nat) : Bool :=
  y % 4 == 0 && (y % 100 != 0 || y % 400 == 0)

def daysInMonth (y m : Nat) : Nat :=
  if m == 2 then (if isLeapYear y then 29 else 28)
  else if m == 4 || m == 6 || m == 9 || m == 11 then 30
  else 31

/-- Argument validity of Python's `datetime(year, month, day)`. -/
def isValidYMD (y m d : Nat) : Bool :=
  decide (1 ≤ y) && decide (y ≤ 9999) && decide (1 ≤ m) && decide (m ≤ 12) &&
    decide (1 ≤ d) && decide (d ≤ daysInMonth y m)

/-- `date_str = tag[2:]; year = int(date_str[:4]); month = int(date_str[4:6]);
day = int(date_str[6:8]); datetime(year, month, day)`
(chiikawa_monitor.py lines 527-531).  Returns the encoded date, or `none`
when an `int` conversion or the `datetime` constructor raises. -/
def parseTagDate (tag : String) : Option Nat :=
  let cs := tag.data.drop 2
  match digitsToNat (cs.take 4), digitsToNat ((cs.drop 4).take 2),
        digitsToNat ((cs.drop 6).take 2) with
  | some y, some m, some d =>
      if isValidYMD y m d then some (y * 10000 + m * 100 + d) else none
  | _, _, _ => none

/-- The date one tag contributes: parse inside a per-tag `try` (failures
skipped) and keep the date only when `resale_date >= current_date`
(chiikawa_monitor.py lines 524-544).  `resale_date` is built with
`tzinfo=TW_TIMEZONE` directly (line 531), which pytz resolves to LMT
+08:06, whereas `current_date` (line 504) is a properly localized +08:00
midnight; compared as instants, a tag dated exactly today falls 6 minutes
short, so the comparison succeeds exactly when the tag's calendar date is
strictly after today's. -/
def futureDateOf (today : Nat) (t : String) : Option Nat :=
  match parseTagDate t with
  | some d => if today < d then some d else none
  | none => none

/-- The dates a candidate-tag list contributes. -/
def validDatesOf (today : Nat) (rtags : List String) : List Nat :=
  rtags.filterMap (futureDateOf today)

/-- Full tag pipeline of one product: filter candidates, parse, keep
today-or-later dates. -/
def resaleDatesOf (today : Nat) (tags : List String) : List Nat :=
  validDatesOf today (tags.filter isResaleTag)

/-- `pymongo.UpdateOne({'url': url}, {'$set': {...}}, upsert=True)` on the
`resale` collection (chiikawa_monitor.py lines 558-575). -/
def upsertResale (now : Nat) (p : Product) (rtags : List String) (nrd : Nat)
    (resale : List RestockEntry) : List RestockEntry :=
  let entry : RestockEntry :=
    { url := p.url, name := p.name, price := p.price, available := p.available,
      tags := p.tags, resale_tags := rtags, next_resale_date := nrd,
      last_updated := now, detected_date := now, image_url := p.image_url }
  if resale.any (fun r => r.url == p.url) then
    resale.map (fun r => if r.url == p.url then entry else r)
  else resale ++ [entry]

/-- The loop body of `process_resale_items` for one product
(chiikawa_monitor.py lines 512-575): products with no candidate tag or no
valid future date are skipped, the rest upsert an entry whose
`next_resale_date` is `min(valid_resale_dates)`. -/
def resaleStep (now today : Nat) (resale : List RestockEntry) (p : Product) :
    List RestockEntry :=
  let rtags := p.tags.filter isResaleTag
  if rtags.isEmpty then resale
  else
    match validDatesOf today rtags with
    | [] => resale
    | d :: ds => upsertResale now p rtags (ds.foldl Nat.min d) resale

/-- `process_resale_items` (chiikawa_monitor.py lines 493-593): for every
product carrying candidate tags with at least one valid future date, upsert
a restock entry keyed by url whose `next_resale_date` is
`min(valid_resale_dates)`. -/
def process_resale_items (now today : Nat) (products_data : List Product)
    (resale : List RestockEntry) : List RestockEntry :=
  products_data.foldl (resaleStep now today) resale

/-! ## History ledger (`record_history`, chiikawa_monitor.py 639-723) -/

/-- The `product` dict passed to `record_history`.  `check_updates` passes a
full catalog product for `'new'` events but only `{'name': n, 'url': u}` for
`'delisted'` events, so every other key is optional. -/
structure PInput where
  name : String
  url : String
  image_url : Option String
  price : Option Int
  available : Option Bool
  tags : Option (List String)
deriving DecidableEq

def Product.toInput (p : Product) : PInput :=
  { name := p.name, url := p.url, image_url := some p.image_url,
    price := some p.price, available := some p.available, tags := some p.tags }

def delistedInput (name url : String) : PInput :=
  { name := name, url := url, image_url := none, price := none,
    available := none, tags := none }

/-- The duplicate check of `record_history` (chiikawa_monitor.py 645-649):
a record with the same url and type dated at or after today's midnight. -/
def historyDupToday (now : Nat) (url : String) (ty : EvType)
    (history : List HistoryEvent) : Bool :=
  history.any (fun e =>
    e.url == url && decide (e.type = ty) && decide (midnightOf now ≤ e.date))

/-- `record_history(product, type_)` (chiikawa_monitor.py 639-723).
Returns `false` and leaves the database unchanged when a record with the
same url and type already exists today; otherwise builds the history data,
backfills the image for `'delisted'` from the products snapshot, and for
`'new'` removes any delisted records for the url and tags the
new-collection record with `is_restock`. -/
def record_history (now : Nat) (p : PInput) (ty : EvType) (db : DB) :
    Bool × DB :=
  if historyDupToday now p.url ty db.history then (false, db)
  else
    let base : HistoryEvent :=
      { date := now, type := ty, name := p.name, url := p.url,
        image_url := none, price := none, available := none, tags := none,
        is_restock := none, time := now }
    match ty with
    | EvType.delisted =>
        let img :=
          match db.products.find? (fun q => q.url == p.url) with
          | some q => q.image_url
          | none => defaultImageUrl
        let h := { base with image_url := some img }
        (true, { db with delisted := db.delisted ++ [h],
                         history := db.history ++ [h] })
    | EvType.new =>
        let h :=
          match p.image_url with
          | some i => { base with image_url := some i }
          | none => base
        let was_delisted := db.delisted.any (fun e => e.url == p.url)
        let delisted2 :=
          if was_delisted then db.delisted.filter (fun e => e.url != p.url)
          else db.delisted
        let newData :=
          { h with price := some (p.price.getD 0),
                   available := some (p.available.getD false),
                   tags := some (p.tags.getD []),
                   is_restock := some was_delisted }
        (true, { db with delisted := delisted2,
                         new := db.new ++ [newData],
                         history := db.history ++ [h] })

/-! ## Snapshot update (`update_products`, chiikawa_monitor.py 317-439) -/

/-- First-occurrence deduplication: the url lists of the source are turned
into Python sets before being iterated. -/
def dedupAux : List String → List String → List String
  | [], _ => []
  | u :: rest, seen =>
      if seen.contains u then dedupAux rest seen
      else u :: dedupAux rest (u :: seen)

def dedupUrls (l : List String) : List String := dedupAux l []

/-- Dictionary built by `{p['url']: p for p in l}`: the last product with a
given url wins. -/
def dictFind (l : List Product) (u : String) : Option Product :=
  l.reverse.find? (fun p => p.url == u)

/-- Step 4 of `update_products` (lines 347-361): when there are new
listings, drop them from the `delisted` and `resale` collections. -/
def cleanRelisted (new_listing_urls : List String) (db : DB) : DB :=
  if new_listing_urls.isEmpty then db
  else
    { db with
      delisted := db.delisted.filter (fun e => !new_listing_urls.contains e.url),
      resale := db.resale.filter (fun r => !new_listing_urls.contains r.url) }

/-- Step 5 of `update_products` (lines 363-380): for every delisted url,
insert a `'delisted'` record built from the previous snapshot data into the
`delisted` collection and the history ledger — with no existence check. -/
def delistedBatchStep (now : Nat) (existing : List Product) (db : DB)
    (u : String) : DB :=
  match dictFind existing u with
  | none => db
  | some op =>
      let h : HistoryEvent :=
        { date := now, type := EvType.delisted, name := op.name,
          url := op.url, image_url := some op.image_url,
          price := some op.price, available := none, tags := none,
          is_restock := none, time := now }
      { db with delisted := db.delisted ++ [h],
                history := db.history ++ [h] }

def recordDelistedBatch (now : Nat) (delisted_urls : List String)
    (existing : List Product) (db : DB) : DB :=
  delisted_urls.foldl (delistedBatchStep now existing) db

/-- Step 6 of `update_products` (lines 382-409): for every new listing,
insert a `'new'` record into the `new` collection and the history ledger —
again with no existence check; `is_restock` is set from a lookup in the
`delisted` collection at insertion time. -/
def newBatchStep (now : Nat) (products_data : List Product) (db : DB)
    (u : String) : DB :=
  match dictFind products_data u with
  | none => db
  | some np =>
      let was_delisted := db.delisted.any (fun e => e.url == u)
      let h : HistoryEvent :=
        { date := now, type := EvType.new, name := np.name, url := np.url,
          image_url := some np.image_url, price := some np.price,
          available := some np.available, tags := some np.tags,
          is_restock := some was_delisted, time := now }
      { db with new := db.new ++ [h],
                history := db.history ++ [h] }

def recordNewBatch (now : Nat) (new_listing_urls : List String)
    (products_data : List Product) (db : DB) : DB :=
  new_listing_urls.foldl (newBatchStep now products_data) db

/-- The `'url' -> 'available'` dictionary of `sync_product_availability`
(chiikawa_monitor.py line 452); the last product with a url wins. -/
def availOf (products_data : List Product) (u : String) : Option Bool :=
  (dictFind products_data u).map (fun p => p.available)

/-- `sync_product_availability` (chiikawa_monitor.py 441-491): update the
`available` field of `'new'`-typed history records and of all `new`
collection records for every url of the fetched catalog. -/
def sync_product_availability (products_data : List Product) (db : DB) : DB :=
  { db with
    history := db.history.map (fun e =>
      if e.type = EvType.new then
        match availOf products_data e.url with
        | some a => { e with available := some a }
        | none => e
      else e),
    new := db.new.map (fun e =>
      match availOf products_data e.url with
      | some a => { e with available := some a }
      | none => e) }

/-- `clean_old_records` (chiikawa_monitor.py 863-906): purge `new` and
`delisted` records older than 7 days and history records older than
30 days. -/
def clean_old_records (now : Nat) (db : DB) : DB :=
  { db with
    new := db.new.filter (fun e => !decide (e.date < now - 7 * minutesPerDay)),
    delisted := db.delisted.filter (fun e => !decide (e.date < now - 7 * minutesPerDay)),
    history := db.history.filter (fun e => !decide (e.date < now - 30 * minutesPerDay)) }

/-- `new_listing_urls = new_urls - existing_urls` (line 342), computed from
the snapshot as it is before the cycle mutates anything. -/
def newListingUrls (products_data : List Product) (db : DB) : List String :=
  (dedupUrls (products_data.map Product.url)).filter
    (fun u => !(dedupUrls (db.products.map Product.url)).contains u)

/-- `delisted_urls = existing_urls - new_urls` (line 343). -/
def delistedUrls (products_data : List Product) (db : DB) : List String :=
  (dedupUrls (db.products.map Product.url)).filter
    (fun u => !(dedupUrls (products_data.map Product.url)).contains u)

/-- Step 7 of `update_products` (line 412): rebuild the resale collection. -/
def applyResale (now today : Nat) (products_data : List Product) (db : DB) :
    DB :=
  { db with resale := process_resale_items now today products_data db.resale }

/-- Step 8 of `update_products` (lines 414-425): wholesale snapshot
replacement — `delete_many({})` followed by `insert_many` with `last_seen`
stamped to the current time. -/
def replaceSnapshot (now : Nat) (products_data : List Product) (db : DB) :
    DB :=
  { db with
    products := products_data.map (fun p => { p with last_seen := now }) }

/-- `update_products(products_data)` (chiikawa_monitor.py 317-439).
An empty list returns immediately; otherwise the numbered steps of the
source run in order: diff the url sets (both taken before any mutation),
clean re-listed entries, record delisted and new history events, process
resale tags, wholesale-replace the snapshot, sync availability, and prune
old records. -/
def update_products (now today : Nat) (products_data : List Product)
    (db : DB) : DB :=
  if products_data.isEmpty then db
  else
    clean_old_records now
      (sync_product_availability products_data
        (replaceSnapshot now products_data
          (applyResale now today products_data
            (recordNewBatch now (newListingUrls products_data db)
              products_data
              (recordDelistedBatch now (delistedUrls products_data db)
                db.products
                (cleanRelisted (newListingUrls products_data db) db))))))

/-! ## Reconciliation cycle (`check_updates`, chiikawa_bot.py 209-431) -/

/-- Terminal outcome of one cycle. -/
inductive CycleOutcome
  | fetchFailed
  | firstRun
  | inconsistent
  | done (new_listings : List (String × String))
         (delisted : List (String × String))
deriving DecidableEq

/-- Python set equality of two url lists. -/
def urlSetEq (l1 l2 : List String) : Bool :=
  l1.all (fun u => l2.contains u) && l2.all (fun u => l1.contains u)

/-- The probe-and-record loop for candidate-delisted products
(chiikawa_bot.py 307-333): urls absent from the verified catalog are probed
with a HEAD request; those whose probe fails are appended to the notified
delisted list and recorded via `record_history`. -/
def probeStep (now : Nat) (probe : String → Bool) (old_products : List Product)
    (acc : List (String × String) × DB) (u : String) :
    List (String × String) × DB :=
  if probe u then acc
  else
    let nm := match dictFind old_products u with
              | some p => p.name
              | none => ""
    (acc.1 ++ [(nm, u)],
     (record_history now (delistedInput nm u) EvType.delisted acc.2).2)

def probeMissing (now : Nat) (probe : String → Bool)
    (missing : List String) (old_products : List Product)
    (start : List (String × String) × DB) : List (String × String) × DB :=
  missing.foldl (probeStep now probe old_products) start

/-- The batch recording of new listings (chiikawa_bot.py 335-353): each
verified new url's full product (from the last fetch) is passed to
`record_history` with type `'new'`. -/
def newListingStep (now : Nat) (new_products_data : List Product) (db : DB)
    (u : String) : DB :=
  match dictFind new_products_data u with
  | some p => (record_history now p.toInput EvType.new db).2
  | none => db

def recordNewListings (now : Nat) (urls : List String)
    (new_products_data : List Product) (db : DB) : DB :=
  urls.foldl (newListingStep now new_products_data) db

/-- `check_updates` (chiikawa_bot.py 209-431), with the three verification
fetches `f1 f2 f3` and the HEAD probe given as inputs.

Any empty fetch raises `FetchProductError` (lines 246-253).  When the
database is empty the code takes the `is_first_run` branch (line 281-283),
which only builds an in-memory dict: every statement from line 284 onward,
including the `update_products` call at line 357, belongs to the `else`
branch, so a first run returns without writing anything.  Otherwise the
three url sets must be identical (lines 288-292) or the cycle is discarded;
on agreement the diff is computed, missing urls are probed and recorded,
new listings recorded, and `update_products` commits the new snapshot. -/
def check_updates (now today : Nat) (probe : String → Bool)
    (f1 f2 f3 : List Product) (db : DB) : CycleOutcome × DB :=
  if f1.isEmpty || f2.isEmpty || f3.isEmpty then (CycleOutcome.fetchFailed, db)
  else
    let urls1 := f1.map Product.url
    let urls2 := f2.map Product.url
    let urls3 := f3.map Product.url
    if db.products.isEmpty then (CycleOutcome.firstRun, db)
    else
      if !(urlSetEq urls1 urls1 && urlSetEq urls2 urls1 && urlSetEq urls3 urls1) then
        (CycleOutcome.inconsistent, db)
      else
        let old_urls := dedupUrls (db.products.map Product.url)
        let current_urls := dedupUrls urls1
        let verified_new_urls := current_urls.filter (fun u => !old_urls.contains u)
        let verified_missing_urls := old_urls.filter (fun u => !current_urls.contains u)
        let new_listings := verified_new_urls.filterMap (fun u =>
          (dictFind f3 u).map (fun p => (p.name, u)))
        let pr := probeMissing now probe verified_missing_urls db.products ([], db)
        let db2 := recordNewListings now verified_new_urls f3 pr.2
        let db3 := update_products now today f3 db2
        (CycleOutcome.done new_listings pr.1, db3)

/-! ## Catalog fetcher (`fetch_products`, chiikawa_monitor.py 125-315) -/

/-- One variant of a raw Shopify product. -/
structure Variant where
  price : Int
  available : Bool
deriving DecidableEq

/-- One raw product of a page response; an image entry is `none` when the
item is not a dict carrying a `'src'` key. -/
structure RawProduct where
  handle : String
  title : String
  variants : List Variant
  images : List (Option String)
  tags : List String
deriving DecidableEq

/-- Result of requesting one catalog page. -/
inductive PageResult
  | ok (products : List RawProduct)
  | httpError
  | jsonError
  | malformed
deriving DecidableEq

/-- Item extraction (chiikawa_monitor.py 244-281): first-variant price and
availability, first image with a placeholder fallback, url synthesized from
the handle. -/
def mkProduct (now : Nat) (r : RawProduct) : Product :=
  let price := match r.variants.head? with
               | some v => v.price
               | none => 0
  let available := match r.variants.head? with
                   | some v => v.available
                   | none => false
  let image_url := match r.images.head? with
                   | some (some s) => if s.isEmpty then defaultImageUrl else s
                   | _ => defaultImageUrl
  { url := "https://chiikawamarket.jp/zh-hant/products/" ++ r.handle,
    name := r.title, price := price, available := available, tags := r.tags,
    image_url := image_url, last_seen := now }

/-- Per-page item loop with the handle-dedup `seen_handles` set; returns the
products newly collected on this page and the grown seen set. -/
def processPage (now : Nat) (items : List RawProduct) (seen : List String) :
    List Product × List String :=
  items.foldl (fun acc it =>
    if it.handle == "" || acc.2.contains it.handle then acc
    else (acc.1 ++ [mkProduct now it], acc.2 ++ [it.handle])) ([], seen)

/-- `True` for a page response that makes the loop hit one of its error
branches: a non-200 status (line 224), a JSON decode failure (line 230), or
a malformed payload (line 234). -/
def pageFails : PageResult → Bool
  | PageResult.ok _ => false
  | _ => true

/-- The pagination loop of `fetch_products` (chiikawa_monitor.py 215-303):
every error branch executes `break` and control falls through to
`return new_products_data`, so the products accumulated so far are
returned.  Running out of input pages stands for the upstream returning an
empty products list (the normal stop). -/
def fetchLoop (now : Nat) : List PageResult → List String → List Product →
    List Product
  | [], _, acc => acc
  | PageResult.ok items :: rest, seen, acc =>
      if items.isEmpty then acc
      else
        let pr := processPage now items seen
        let acc2 := acc ++ pr.1
        if pr.1.isEmpty then acc2 else fetchLoop now rest pr.2 acc2
  | _ :: _, _, acc => acc

/-- The whole-catalog pagination of `fetch_products` after the initial
connectivity and API probes have succeeded (failures of those probes go
through the retry loop and end in an empty result; they precede the page
loop and are not part of the claims about mid-fetch page failures). -/
def fetch_products (now : Nat) (pages : List PageResult) : List Product :=
  fetchLoop now pages [] []

/-! ## Concrete fixtures shared by the witnesses and counterexamples -/

def prodA : Product := ⟨"A", "ItemA", 100, true, [], "imgA", 0⟩

def prodB : Product := ⟨"B", "ItemB", 200, false, [], "imgB", 0⟩

def prodU : Product := ⟨"U", "ItemU", 300, true, [], "imgU", 0⟩

def evU : HistoryEvent :=
  ⟨1000, EvType.delisted, "ItemU", "U", some "imgU", some 300, none, none, none, 1000⟩

def entryU : RestockEntry :=
  ⟨"U", "ItemU", 300, false, [], ["RE20250601"], 20250601, 5, 5, "imgU"⟩

def dbEmpty : DB := ⟨[], [], [], [], []⟩

def dbA : DB := ⟨[prodA], [], [], [], []⟩

def dbAB : DB := ⟨[prodA, prodB], [], [], [], []⟩

def dbRelist : DB := ⟨[prodA], [evU], [], [evU], [entryU]⟩

def rawA : RawProduct := ⟨"a1", "ItemA", [⟨500, true⟩], [some "imgA"], []⟩

def tagProduct : Product :=
  ⟨"T", "ItemT", 1, true, ["RE20250710", "RE20250601", "RE20240101"], "imgT", 0⟩

def badTagProduct : Product := ⟨"T", "ItemT", 1, true, ["RE2025ab01"], "imgT", 0⟩

def probeTrue : String → Bool := fun _ => true

def probeFalse : String → Bool := fun _ => false

/-- The claim's characterization of a restock tag, following the spec's
words: the fixed prefix `RE` followed by an 8-digit date `YYYYMMDD` and
nothing else. -/
def specRestockTag (tag : String) : Bool :=
  listIsPref "RE".data tag.data && decide (tag.data.length = 10) &&
    (tag.data.drop 2).all Char.isDigit

/-! ## Helper lemmas -/

theorem contains_iff_mem (l : List String) (a : String) :
    l.contains a = true ↔ a ∈ l := by simp

theorem foldl_pres {α β : Type} {P : β → Prop} {f : β → α → β} :
    ∀ (l : List α) (b : β), P b → (∀ b a, a ∈ l → P b → P (f b a)) →
      P (l.foldl f b) := by
  intro l
  induction l with
  | nil => intro b hb _; simpa using hb
  | cons a t ih =>
      intro b hb hstep
      simp only [List.foldl_cons]
      exact ih (f b a) (hstep b a (List.mem_cons_self a t) hb)
        (fun b2 a2 ha2 hb2 => hstep b2 a2 (List.mem_cons_of_mem a ha2) hb2)

theorem clean_old_records_spec (now : Nat) (db : DB) :
    (∀ e ∈ (clean_old_records now db).new, now - 7 * minutesPerDay ≤ e.date) ∧
    (∀ e ∈ (clean_old_records now db).delisted, now - 7 * minutesPerDay ≤ e.date) ∧
    (∀ e ∈ (clean_old_records now db).history, now - 30 * minutesPerDay ≤ e.date) := by
  refine ⟨?_, ?_, ?_⟩ <;>
  · intro e he
    simp only [clean_old_records, List.mem_filter, Bool.not_eq_true',
      decide_eq_false_iff_not, Nat.not_lt] at he
    exact he.2

/-! ## Claim C10 — empty catalog never wipes the snapshot -/

/-- C10: calling `update_products` with an empty product list returns
immediately without mutating any collection — the snapshot keeps its
previous contents and no history, new, delisted, or resale records are
written or deleted. -/
theorem c10_empty_update_is_noop (now today : Nat) (db : DB) :
    update_products now today [] db = db := rfl

/-! ## Claim C9 — retention bounds after pruning -/

/-- C9: after the pruning step at the end of every successful reconciliation
cycle (`update_products` on a non-empty catalog ends by running
`clean_old_records`), the `new` and `delisted` collections contain no event
older than 7 days and the unified history ledger contains no event older
than 30 days. -/
theorem c9_retention_after_cycle (now today : Nat)
    (products_data : List Product) (db : DB) (h : products_data ≠ []) :
    (∀ e ∈ (update_products now today products_data db).new,
        now - 7 * minutesPerDay ≤ e.date) ∧
    (∀ e ∈ (update_products now today products_data db).delisted,
        now - 7 * minutesPerDay ≤ e.date) ∧
    (∀ e ∈ (update_products now today products_data db).history,
        now - 30 * minutesPerDay ≤ e.date) := by
  have hne : products_data.isEmpty = false := by
    cases products_data with
    | nil => exact absurd rfl h
    | cons a l => rfl
  unfold update_products
  rw [hne]
  simp only [Bool.false_eq_true, if_false]
  exact clean_old_records_spec now _

/-- C9 witness: a concrete one-product cycle satisfies the retention
bounds. -/
theorem c9_retention_after_cycle_witness :
    (∀ e ∈ (update_products 14400 20250601 [prodA] dbAB).new,
        14400 - 7 * minutesPerDay ≤ e.date) ∧
    (∀ e ∈ (update_products 14400 20250601 [prodA] dbAB).delisted,
        14400 - 7 * minutesPerDay ≤ e.date) ∧
    (∀ e ∈ (update_products 14400 20250601 [prodA] dbAB).history,
        14400 - 30 * minutesPerDay ≤ e.date) :=
  c9_retention_after_cycle 14400 20250601 [prodA] dbAB (by decide)

/-! ## Claim C4 — page failures and partial catalogs -/

/-- C4 counterexample: page 1 succeeds with one product, page 2 returns a
non-200 status.  `fetch_products` returns the partial catalog collected
from page 1 — a non-empty list — refuting the claim that a mid-fetch page
failure always yields an empty or failed result. -/
theorem c4_partial_catalog_returned :
    fetch_products 7 [PageResult.ok [rawA], PageResult.httpError]
      = [mkProduct 7 rawA] ∧
    fetch_products 7 [PageResult.ok [rawA], PageResult.httpError] ≠ [] := by
  constructor
  · rfl
  · decide

/-- C4 amended: when a page request fails (non-200 status, JSON decode
error, or malformed page data), the pagination loop breaks and returns
exactly the catalog accumulated from the earlier pages, rather than an
empty or failed result. -/
theorem c4_page_failure_stops_with_partial (now : Nat) (p : PageResult)
    (rest : List PageResult) (seen : List String) (acc : List Product)
    (h : pageFails p = true) :
    fetchLoop now (p :: rest) seen acc = acc := by
  cases p with
  | ok items => simp [pageFails] at h
  | httpError => rfl
  | jsonError => rfl
  | malformed => rfl

/-- C4 witness: a failing page after one accumulated product returns that
product alone. -/
theorem c4_page_failure_stops_with_partial_witness :
    fetchLoop 7 [PageResult.jsonError, PageResult.ok [rawA]] ["a1"]
      [mkProduct 7 rawA] = [mkProduct 7 rawA] :=
  c4_page_failure_stops_with_partial 7 PageResult.jsonError
    [PageResult.ok [rawA]] ["a1"] [mkProduct 7 rawA] rfl

/-! ## Claim C7 — restock tag recognition -/

/-- C7 counterexample: `"RE20260101"` is the fixed prefix followed by an
8-digit valid calendar date, yet the code ignores it (its filter demands
the prefix `RE2025`); conversely `"RE20250601X"` is not of the claimed
shape, yet the code accepts it and derives a date from it. -/
theorem c7_tag_shape_mismatch :
    specRestockTag "RE20260101" = true ∧
    isValidYMD 2026 1 1 = true ∧
    isResaleTag "RE20260101" = false ∧
    resaleDatesOf 20250601 ["RE20260101"] = [] ∧
    specRestockTag "RE20250601X" = false ∧
    isResaleTag "RE20250601X" = true ∧
    resaleDatesOf 20250101 ["RE20250601X"] = [20250601] := by decide

/-- C7 amended: a tag contributes a restock date exactly when it starts
with the fixed prefix `RE2025` and has at least 10 characters, and its
characters 3-10 parse as digits forming a valid calendar date strictly
after today (the LMT offset pytz attaches on the tag side makes the
source's `>=` comparison strict at day granularity); any other tag — including one matching the candidate shape
whose digits do not form a valid calendar date — is ignored, and the
surrounding tags are processed exactly as if it were absent; a product all
of whose tags are ignored leaves the resale collection untouched and
processing continues with the remaining products, never failing the
cycle. -/
theorem c7_tag_treatment :
    (∀ (today : Nat) (pre post : List String) (tag : String),
        resaleDatesOf today (pre ++ tag :: post)
          = resaleDatesOf today pre
            ++ (if isResaleTag tag then
                  match parseTagDate tag with
                  | some d => if today < d then [d] else []
                  | none => []
                else [])
            ++ resaleDatesOf today post) ∧
    (∀ (now today : Nat) (p : Product) (rest : List Product)
        (resale : List RestockEntry),
        resaleDatesOf today p.tags = [] →
        process_resale_items now today (p :: rest) resale
          = process_resale_items now today rest resale) := by
  constructor
  · intro today pre post tag
    by_cases h : isResaleTag tag = true
    · simp only [resaleDatesOf, validDatesOf, futureDateOf, List.filter_append,
        List.filter_cons, h, if_true, List.filterMap_append, List.filterMap_cons]
      cases hp : parseTagDate tag with
      | none => simp
      | some d =>
          by_cases hd : today < d
          · simp [hd]
          · simp [hd]
    · have h2 : isResaleTag tag = false := by
        revert h; cases isResaleTag tag <;> simp
      simp [resaleDatesOf, validDatesOf, List.filter_append,
        List.filter_cons, h2, List.filterMap_append]
  · intro now today p rest resale h
    simp only [process_resale_items, List.foldl_cons]
    have hstep : resaleStep now today resale p = resale := by
      unfold resaleStep
      simp only [resaleDatesOf] at h
      by_cases hrt : (p.tags.filter isResaleTag).isEmpty
      · simp [hrt]
      · simp [hrt, h]
    rw [hstep]

/-- C7 witness: a product whose only tag is a candidate with non-digit
date characters is skipped and the resale collection stays empty. -/
theorem c7_tag_treatment_witness :
    process_resale_items 5 20250101 [badTagProduct] [] = [] :=
  (c7_tag_treatment.2 5 20250101 badTagProduct [] [] (by decide)).trans rfl

/-! ## Claim C8 — next_resale_date is the minimum future tag date -/

theorem foldlMin_mem : ∀ (ds : List Nat) (d : Nat),
    ds.foldl Nat.min d ∈ d :: ds := by
  intro ds
  induction ds with
  | nil => intro d; simp
  | cons a t ih =>
      intro d
      simp only [List.foldl_cons]
      rcases List.mem_cons.mp (ih (Nat.min d a)) with h1 | h1
      · rw [h1]
        rcases Nat.le_total d a with hle | hle
        · have h2 : Nat.min d a = d := Nat.min_eq_left hle
          rw [h2]
          exact List.mem_cons_self _ _
        · have h2 : Nat.min d a = a := Nat.min_eq_right hle
          rw [h2]
          exact List.mem_cons_of_mem _ (List.mem_cons_self _ _)
      · exact List.mem_cons_of_mem _ (List.mem_cons_of_mem _ h1)

theorem foldlMin_le : ∀ (ds : List Nat) (d x : Nat), x ∈ d :: ds →
    ds.foldl Nat.min d ≤ x := by
  intro ds
  induction ds with
  | nil =>
      intro d x hx
      simp only [List.mem_singleton] at hx
      simp [hx]
  | cons a t ih =>
      intro d x hx
      simp only [List.foldl_cons]
      have hmin : List.foldl Nat.min (Nat.min d a) t ≤ Nat.min d a :=
        ih (Nat.min d a) (Nat.min d a) (List.mem_cons_self _ _)
      rcases List.mem_cons.mp hx with h1 | h1
      · rw [h1]
        exact le_trans hmin (Nat.min_le_left d a)
      · rcases List.mem_cons.mp h1 with h2 | h2
        · rw [h2]
          exact le_trans hmin (Nat.min_le_right d a)
        · exact ih (Nat.min d a) x (List.mem_cons_of_mem _ h2)

theorem futureDateOf_some {today : Nat} {t : String} {x : Nat}
    (ht : futureDateOf today t = some x) : today < x := by
  unfold futureDateOf at ht
  split at ht
  · rename_i d heq
    split at ht
    · rename_i hle
      cases ht
      exact hle
    · cases ht
  · cases ht

theorem validDatesOf_gt (today : Nat) (rtags : List String) :
    ∀ x ∈ validDatesOf today rtags, today < x := by
  intro x hx
  simp only [validDatesOf, List.mem_filterMap] at hx
  obtain ⟨t, _, ht⟩ := hx
  exact futureDateOf_some ht

/-- After `resaleStep` on a product with valid dates, the resale collection
holds an entry for the product's url with the computed minimum date. -/
theorem resaleStep_establishes (now today : Nat) (resale : List RestockEntry)
    (p : Product) (d : Nat) (ds : List Nat)
    (hv : validDatesOf today (p.tags.filter isResaleTag) = d :: ds) :
    ∃ r ∈ resaleStep now today resale p,
      r.url = p.url ∧ r.next_resale_date = ds.foldl Nat.min d := by
  have hrt : (p.tags.filter isResaleTag).isEmpty = false := by
    cases hh : p.tags.filter isResaleTag with
    | nil => rw [hh] at hv; simp [validDatesOf] at hv
    | cons a t => rfl
  simp only [resaleStep, hrt, Bool.false_eq_true, if_false, hv, upsertResale]
  by_cases hany : (resale.any fun r => r.url == p.url) = true
  · rw [if_pos hany]
    simp only [List.any_eq_true, beq_iff_eq] at hany
    obtain ⟨r0, hr0, hr0u⟩ := hany
    refine ⟨_, List.mem_map_of_mem _ hr0, ?_⟩
    simp [hr0u]
  · rw [if_neg hany]
    exact ⟨_, List.mem_append_right _ (List.mem_singleton.mpr rfl), rfl, rfl⟩

/-- `resaleStep` for a product with a different url, or a reprocessing of
the same product, preserves the presence of the target entry. -/
theorem resaleStep_preserves (now today : Nat) (resale : List RestockEntry)
    (q p : Product) (d : Nat) (ds : List Nat)
    (hv : validDatesOf today (p.tags.filter isResaleTag) = d :: ds)
    (hq : q.url = p.url → q = p)
    (hI : ∃ r ∈ resale, r.url = p.url ∧ r.next_resale_date = ds.foldl Nat.min d) :
    ∃ r ∈ resaleStep now today resale q,
      r.url = p.url ∧ r.next_resale_date = ds.foldl Nat.min d := by
  by_cases hqu : q.url = p.url
  · have hqp : q = p := hq hqu
    subst hqp
    exact resaleStep_establishes now today resale q d ds hv
  · obtain ⟨r0, hr0, hr0u, hr0d⟩ := hI
    cases hrt : (q.tags.filter isResaleTag).isEmpty with
    | true =>
        simp only [resaleStep, hrt, if_true]
        exact ⟨r0, hr0, hr0u, hr0d⟩
    | false =>
        cases hvq : validDatesOf today (q.tags.filter isResaleTag) with
        | nil =>
            simp only [resaleStep, hrt, Bool.false_eq_true, if_false, hvq]
            exact ⟨r0, hr0, hr0u, hr0d⟩
        | cons a t =>
            simp only [resaleStep, hrt, Bool.false_eq_true, if_false, hvq,
              upsertResale]
            by_cases hany : (resale.any fun r => r.url == q.url) = true
            · rw [if_pos hany]
              refine ⟨_, List.mem_map_of_mem _ hr0, ?_⟩
              rw [if_neg]
              · exact ⟨hr0u, hr0d⟩
              · simp only [beq_iff_eq, hr0u]
                intro hc
                exact hqu hc.symm
            · rw [if_neg hany]
              exact ⟨r0, List.mem_append_left _ hr0, hr0u, hr0d⟩

/-- C8 counterexample: on 2025-06-01 the product carries the tag
`RE20250601`, whose parsed date is exactly today — per the claim a
today-or-later date, so the claimed `next_resale_date` would be its
minimum 20250601.  The program builds the tag datetime with the pytz LMT
+08:06 offset, 6 minutes before the +08:00 `current_date` midnight, so
`resale_date >= current_date` fails and the today-dated tag is discarded:
the upserted entry carries 20250710 instead. -/
theorem c8_today_tag_discarded :
    parseTagDate "RE20250601" = some 20250601 ∧
    (20250601 ≤ 20250601 ∧ "RE20250601" ∈ tagProduct.tags) ∧
    (process_resale_items 14400 20250601 [tagProduct] []).map
      (fun r => (r.url, r.next_resale_date)) = [("T", 20250710)] ∧
    (20250710 : Nat) ≠ 20250601 := by decide

/-- C8 amended: for every product carrying at least one candidate restock
tag whose parsed date is *strictly after* today (so its valid-date list is
non-empty), the resale collection after `process_resale_items` contains an
entry for the product's url whose `next_resale_date` is the minimum of
those strictly-future tag-derived dates (it belongs to the list and bounds
every element below) and is strictly greater than today's date; tags dated
today or earlier are discarded, because the source's `>=` comparison pits
an LMT +08:06 tag midnight against a CST +08:00 current midnight and is
therefore strict at day granularity. -/
theorem c8_next_resale_is_min_future_date (now today : Nat)
    (ps : List Product) (resale0 : List RestockEntry) (p : Product)
    (d : Nat) (ds : List Nat)
    (hp : p ∈ ps)
    (huniq : ∀ q ∈ ps, q.url = p.url → q = p)
    (hv : validDatesOf today (p.tags.filter isResaleTag) = d :: ds) :
    ∃ r ∈ process_resale_items now today ps resale0,
      r.url = p.url ∧
      r.next_resale_date ∈ validDatesOf today (p.tags.filter isResaleTag) ∧
      (∀ x ∈ validDatesOf today (p.tags.filter isResaleTag),
        r.next_resale_date ≤ x) ∧
      today < r.next_resale_date := by
  obtain ⟨l1, l2, rfl⟩ := List.append_of_mem hp
  have hIend : ∃ r ∈ process_resale_items now today (l1 ++ p :: l2) resale0,
      r.url = p.url ∧ r.next_resale_date = ds.foldl Nat.min d := by
    unfold process_resale_items
    rw [List.foldl_append, List.foldl_cons]
    refine foldl_pres (P := fun rs : List RestockEntry => ∃ r ∈ rs,
        r.url = p.url ∧ r.next_resale_date = ds.foldl Nat.min d) l2 _ ?_ ?_
    · exact resaleStep_establishes now today _ p d ds hv
    · intro b q hq hI
      exact resaleStep_preserves now today b q p d ds hv
        (huniq q (by simp [hq])) hI
  obtain ⟨r, hr, hru, hrd⟩ := hIend
  have hmem : r.next_resale_date ∈ validDatesOf today (p.tags.filter isResaleTag) := by
    rw [hv, hrd]
    exact foldlMin_mem ds d
  refine ⟨r, hr, hru, hmem, ?_, validDatesOf_gt today _ _ hmem⟩
  intro x hx
  rw [hv] at hx
  rw [hrd]
  exact foldlMin_le ds d x hx

/-- C8 witness: a product tagged for 2025-07-10, 2025-06-01 and a stale
2024 date, processed on 2025-06-01, upserts `next_resale_date = 20250710`
— the minimum of its strictly-future dates (the today-dated tag is
discarded along with the stale one). -/
theorem c8_next_resale_is_min_future_date_witness :
    ∃ r ∈ process_resale_items 14400 20250601 [tagProduct] [],
      r.url = tagProduct.url ∧
      r.next_resale_date ∈ validDatesOf 20250601 (tagProduct.tags.filter isResaleTag) ∧
      (∀ x ∈ validDatesOf 20250601 (tagProduct.tags.filter isResaleTag),
        r.next_resale_date ≤ x) ∧
      20250601 < r.next_resale_date :=
  c8_next_resale_is_min_future_date 14400 20250601 [tagProduct] [] tagProduct
    20250710 [] (by decide) (by decide) (by decide)

/-! ## Claims C1, C5 — first run and the verification guard -/

theorem urlSetEq_self (l : List String) : urlSetEq l l = true := by
  simp [urlSetEq, List.all_eq_true]

/-- C1: on a first-ever run (empty snapshot) with non-empty fetches, the
cycle returns with the whole database — including the snapshot — exactly as
it was: no events are emitted, but the snapshot is *not* populated either,
because the `update_products` call at chiikawa_bot.py line 357 (and the
initialization message at line 361) sit inside the non-first-run `else`
branch and are unreachable on a first run. -/
theorem c1_first_run_writes_nothing (now today : Nat) (probe : String → Bool)
    (f1 f2 f3 : List Product) (db : DB)
    (hdb : db.products = []) (h1 : f1 ≠ []) (h2 : f2 ≠ []) (h3 : f3 ≠ []) :
    check_updates now today probe f1 f2 f3 db = (CycleOutcome.firstRun, db) := by
  have e1 : f1.isEmpty = false := by
    cases f1 with
    | nil => exact absurd rfl h1
    | cons a l => rfl
  have e2 : f2.isEmpty = false := by
    cases f2 with
    | nil => exact absurd rfl h2
    | cons a l => rfl
  have e3 : f3.isEmpty = false := by
    cases f3 with
    | nil => exact absurd rfl h3
    | cons a l => rfl
  have ep : db.products.isEmpty = true := by rw [hdb]; rfl
  simp [check_updates, e1, e2, e3, ep]

/-- C1 witness: a concrete first run on a one-product catalog returns the
empty database untouched. -/
theorem c1_first_run_writes_nothing_witness :
    check_updates 14400 20250601 probeTrue [prodA] [prodA] [prodA] dbEmpty
      = (CycleOutcome.firstRun, dbEmpty) :=
  c1_first_run_writes_nothing 14400 20250601 probeTrue [prodA] [prodA]
    [prodA] dbEmpty rfl (by decide) (by decide) (by decide)

/-- C5 counterexample: with an *empty* baseline the three verification
results are never compared — here they disagree (`{A}`, `{A,B}`, `{A}`)
yet the cycle takes the first-run path instead of aborting with the
inconsistency warning. -/
theorem c5_first_run_skips_verification :
    (urlSetEq ([prodA, prodB].map Product.url) ([prodA].map Product.url) &&
       urlSetEq ([prodA].map Product.url) ([prodA].map Product.url)) = false ∧
    check_updates 14400 20250601 probeTrue [prodA] [prodA, prodB] [prodA]
      dbEmpty = (CycleOutcome.firstRun, dbEmpty) ∧
    CycleOutcome.firstRun ≠ CycleOutcome.inconsistent := by decide

/-- C5 amended: for every cycle with a *non-empty* baseline and three
non-empty fetches whose url sets are not all identical, the cycle aborts
with the inconsistency warning before any mutating write — every collection
is exactly as it was before the cycle started.  (With an empty baseline the
comparison is skipped and the first-run path is taken, which also performs
no writes.) -/
theorem c5_inconsistent_fetches_abort (now today : Nat)
    (probe : String → Bool) (f1 f2 f3 : List Product) (db : DB)
    (hdb : db.products ≠ [])
    (h1 : f1 ≠ []) (h2 : f2 ≠ []) (h3 : f3 ≠ [])
    (hbad : (urlSetEq (f2.map Product.url) (f1.map Product.url) &&
             urlSetEq (f3.map Product.url) (f1.map Product.url)) = false) :
    check_updates now today probe f1 f2 f3 db
      = (CycleOutcome.inconsistent, db) := by
  have e1 : f1.isEmpty = false := by
    cases f1 with
    | nil => exact absurd rfl h1
    | cons a l => rfl
  have e2 : f2.isEmpty = false := by
    cases f2 with
    | nil => exact absurd rfl h2
    | cons a l => rfl
  have e3 : f3.isEmpty = false := by
    cases f3 with
    | nil => exact absurd rfl h3
    | cons a l => rfl
  have ep : db.products.isEmpty = false := by
    cases hp : db.products with
    | nil => exact absurd hp hdb
    | cons a l => rfl
  simp [check_updates, e1, e2, e3, ep, urlSetEq_self, hbad]

/-- C5 witness: flicker `{A}`, `{A,B}`, `{A}` on a non-empty baseline is
rejected and the database is returned unchanged. -/
theorem c5_inconsistent_fetches_abort_witness :
    check_updates 14400 20250601 probeTrue [prodA] [prodA, prodB] [prodA] dbA
      = (CycleOutcome.inconsistent, dbA) :=
  c5_inconsistent_fetches_abort 14400 20250601 probeTrue [prodA]
    [prodA, prodB] [prodA] dbA (by decide) (by decide) (by decide) (by decide)
    (by decide)

/-! ## Claim C2 — the reachability probe is overridden -/

/-- C2: url `A` is in the baseline, absent from the verified catalog
`{B}`, and its HEAD probe succeeds — `check_updates` therefore skips its
own `record_history` call — yet after the cycle the `delisted` collection
and the history ledger both contain a delisted event for `A`, inserted by
`update_products` (chiikawa_monitor.py lines 363-380), which re-derives the
delisted set and writes it without consulting the probe. -/
theorem c2_reachable_url_still_delisted :
    probeTrue "A" = true ∧
    ((check_updates 14400 20250601 probeTrue [prodB] [prodB] [prodB]
        dbAB).2).delisted.any
      (fun e => e.url == "A" && decide (e.type = EvType.delisted)) = true ∧
    ((check_updates 14400 20250601 probeTrue [prodB] [prodB] [prodB]
        dbAB).2).history.any
      (fun e => e.url == "A" && decide (e.type = EvType.delisted)) = true := by
  decide

/-! ## Claim C3 — daily (url, type) uniqueness is violated -/

/-- C3: one cycle over baseline `{A}` and verified catalog `{A,B}` leaves
*two* history-ledger events with url `B`, type `new`, dated today:
`check_updates` records one through `record_history` (which does check for
duplicates) and `update_products` then inserts a second one with no
existence check (chiikawa_monitor.py lines 382-409). -/
theorem c3_same_day_duplicate_history :
    ((check_updates 14400 20250601 probeFalse [prodA, prodB] [prodA, prodB]
        [prodA, prodB] dbA).2).history.countP
      (fun e => e.url == "B" && decide (e.type = EvType.new) &&
        decide (midnightOf 14400 ≤ e.date)) = 2 := by decide

/-! ## Claim C6 — relisting tags is_restock and clears stale records -/

theorem contains_eq_false_of_not_mem {l : List String} {a : String}
    (h : a ∉ l) : l.contains a = false := by
  cases hc : l.contains a with
  | false => rfl
  | true => exact absurd ((contains_iff_mem l a).mp hc) h

theorem mem_dedupAux : ∀ (l seen : List String) (a : String),
    a ∈ dedupAux l seen ↔ (a ∈ l ∧ a ∉ seen) := by
  intro l
  induction l with
  | nil => intro seen a; simp [dedupAux]
  | cons u rest ih =>
      intro seen a
      unfold dedupAux
      cases hc : seen.contains u with
      | true =>
          rw [if_pos rfl, ih]
          have hu : u ∈ seen := (contains_iff_mem seen u).mp hc
          constructor
          · rintro ⟨ha1, ha2⟩
            exact ⟨List.mem_cons_of_mem _ ha1, ha2⟩
          · rintro ⟨ha1, ha2⟩
            rcases List.mem_cons.mp ha1 with rfl | ha1
            · exact absurd hu ha2
            · exact ⟨ha1, ha2⟩
      | false =>
        rw [if_neg (by simp)]
        constructor
        · intro hmem
          rcases List.mem_cons.mp hmem with rfl | hmem
          · refine ⟨List.mem_cons_self _ _, fun hc2 => ?_⟩
            rw [(contains_iff_mem seen a).mpr hc2] at hc
            cases hc
          · rcases (ih (u :: seen) a).mp hmem with ⟨ha1, ha2⟩
            exact ⟨List.mem_cons_of_mem _ ha1,
              fun hc2 => ha2 (List.mem_cons_of_mem _ hc2)⟩
        · rintro ⟨ha1, ha2⟩
          rcases List.mem_cons.mp ha1 with rfl | ha1
          · exact List.mem_cons_self _ _
          · by_cases hau : a = u
            · rw [hau]
              exact List.mem_cons_self _ _
            · refine List.mem_cons_of_mem _ ((ih (u :: seen) a).mpr ⟨ha1, ?_⟩)
              intro hmem
              rcases List.mem_cons.mp hmem with h4 | h4
              · exact hau h4
              · exact ha2 h4

theorem mem_dedupUrls {l : List String} {a : String} :
    a ∈ dedupUrls l ↔ a ∈ l := by
  unfold dedupUrls
  rw [mem_dedupAux]
  simp

theorem urlSetEq_mem_left {l1 l2 : List String} (h : urlSetEq l1 l2 = true)
    {a : String} (ha : a ∈ l2) : a ∈ l1 := by
  unfold urlSetEq at h
  rw [Bool.and_eq_true] at h
  exact (contains_iff_mem l1 a).mp (List.all_eq_true.mp h.2 a ha)

theorem exists_first_split {l : List String} {a : String} (h : a ∈ l) :
    ∃ l1 l2, l = l1 ++ a :: l2 ∧ a ∉ l1 := by
  induction l with
  | nil => cases h
  | cons b rest ih =>
      by_cases hb : a = b
      · exact ⟨[], rest, by simp [hb], by simp⟩
      · have h1 : a ∈ rest := by
          rcases List.mem_cons.mp h with h2 | h2
          · exact absurd h2 hb
          · exact h2
        obtain ⟨l1, l2, heq, hni⟩ := ih h1
        refine ⟨b :: l1, l2, by rw [List.cons_append, heq], ?_⟩
        intro hmem
        rcases List.mem_cons.mp hmem with h4 | h4
        · exact hb h4
        · exact hni h4

theorem dictFind_some {l : List Product} {u : String} {p : Product}
    (h : dictFind l u = some p) : p ∈ l ∧ p.url = u := by
  unfold dictFind at h
  have h1 := List.find?_some h
  have h2 := List.mem_of_find?_eq_some h
  exact ⟨List.mem_reverse.mp h2, by simpa using h1⟩

theorem dictFind_isSome {l : List Product} {u : String}
    (h : u ∈ l.map Product.url) : ∃ p, dictFind l u = some p := by
  rcases List.mem_map.mp h with ⟨p, hp, hpu⟩
  have h2 : (l.reverse.find? (fun q => q.url == u)).isSome := by
    rw [List.find?_isSome]
    exact ⟨p, List.mem_reverse.mpr hp, by simp [hpu]⟩
  exact Option.isSome_iff_exists.mp h2

/-- A duplicate hit makes `record_history` a no-op returning `false`. -/
theorem record_history_dup_eq (now : Nat) (p : PInput) (ty : EvType) (db : DB)
    (hdup : historyDupToday now p.url ty db.history = true) :
    record_history now p ty db = (false, db) := by
  unfold record_history
  rw [if_pos hdup]

/-- Shape of a successful `'delisted'` insertion. -/
theorem record_history_delisted_eq (now : Nat) (p : PInput) (db : DB)
    (hdup : historyDupToday now p.url EvType.delisted db.history = false) :
    ∃ hh, (record_history now p EvType.delisted db).2
        = { db with delisted := db.delisted ++ [hh],
                    history := db.history ++ [hh] } ∧
      hh.type = EvType.delisted ∧ hh.url = p.url ∧ hh.date = now := by
  unfold record_history
  rw [if_neg (by simp [hdup])]
  exact ⟨_, rfl, rfl, rfl, rfl⟩

/-- Shape of a successful `'new'` insertion: the delisted records for the
url are filtered out exactly when one existed, and the new-collection
record's `is_restock` carries that lookup's result. -/
theorem record_history_new_eq (now : Nat) (p : PInput) (db : DB)
    (hdup : historyDupToday now p.url EvType.new db.history = false) :
    ∃ nd hh,
      (record_history now p EvType.new db).2
        = { db with
            delisted := if db.delisted.any (fun e => e.url == p.url)
                        then db.delisted.filter (fun e => e.url != p.url)
                        else db.delisted,
            new := db.new ++ [nd],
            history := db.history ++ [hh] } ∧
      nd.url = p.url ∧ nd.date = now ∧
      nd.is_restock = some (db.delisted.any (fun e => e.url == p.url)) ∧
      hh.url = p.url ∧ hh.type = EvType.new ∧ hh.date = now := by
  unfold record_history
  rw [if_neg (by simp [hdup])]
  cases hpi : p.image_url with
  | none => exact ⟨_, _, rfl, rfl, rfl, rfl, rfl, rfl, rfl⟩
  | some i => exact ⟨_, _, rfl, rfl, rfl, rfl, rfl, rfl, rfl⟩

theorem record_history_preserves_core (now : Nat) (p : PInput) (ty : EvType)
    (db : DB) :
    ((record_history now p ty db).2).products = db.products ∧
    ((record_history now p ty db).2).resale = db.resale := by
  cases hdup : historyDupToday now p.url ty db.history with
  | true => rw [record_history_dup_eq now p ty db hdup]; exact ⟨rfl, rfl⟩
  | false =>
      cases ty with
      | delisted =>
          obtain ⟨hh, heq, _⟩ := record_history_delisted_eq now p db hdup
          rw [heq]
          exact ⟨rfl, rfl⟩
      | new =>
          obtain ⟨nd, hh, heq, _⟩ := record_history_new_eq now p db hdup
          rw [heq]
          exact ⟨rfl, rfl⟩

/-- `historyDupToday` stays false when only events that fail the predicate
are appended. -/
theorem historyDupToday_append_false (now : Nat) (U : String) (ty : EvType)
    (hist : List HistoryEvent) (hh : HistoryEvent)
    (h : historyDupToday now U ty hist = false)
    (hne : hh.url ≠ U ∨ hh.type ≠ ty) :
    historyDupToday now U ty (hist ++ [hh]) = false := by
  unfold historyDupToday at h ⊢
  rw [List.any_append, h]
  simp only [Bool.false_or, List.any_cons, List.any_nil, Bool.or_false]
  rcases hne with hne | hne
  · simp [hne]
  · simp [hne]

/-- A `'delisted'` recording preserves the C6 probe-phase invariant for a
relisted url `U`: the delisted record for `U` survives, no `'new'` event
for `U` is created today, and the snapshot and resale collections are
untouched. -/
theorem probe_phase_step (now : Nat) (pin : PInput) (U : String) (d : DB)
    (h1 : ∃ e ∈ d.delisted, e.url = U)
    (h2 : historyDupToday now U EvType.new d.history = false) :
    (∃ e ∈ ((record_history now pin EvType.delisted d).2).delisted, e.url = U) ∧
    historyDupToday now U EvType.new
      ((record_history now pin EvType.delisted d).2).history = false := by
  cases hdup : historyDupToday now pin.url EvType.delisted d.history with
  | true =>
      rw [record_history_dup_eq now pin EvType.delisted d hdup]
      exact ⟨h1, h2⟩
  | false =>
      obtain ⟨hh, heq, hty, hurl, hdate⟩ :=
        record_history_delisted_eq now pin d hdup
      rw [heq]
      constructor
      · obtain ⟨e, he, heu⟩ := h1
        exact ⟨e, List.mem_append_left _ he, heu⟩
      · exact historyDupToday_append_false now U EvType.new d.history hh h2
          (Or.inr (by rw [hty]; intro hcon; cases hcon))

/-- One `newListingStep` for a url other than `U` preserves the C6
pre-insertion invariant. -/
theorem newListing_phase_pres (now : Nat) (f3 : List Product) (U : String)
    (d : DB) (u : String) (hne : u ≠ U)
    (h1 : ∃ e ∈ d.delisted, e.url = U)
    (h2 : historyDupToday now U EvType.new d.history = false) :
    (∃ e ∈ (newListingStep now f3 d u).delisted, e.url = U) ∧
    historyDupToday now U EvType.new (newListingStep now f3 d u).history
      = false := by
  cases hdf : dictFind f3 u with
  | none =>
      simp only [newListingStep, hdf]
      exact ⟨h1, h2⟩
  | some p =>
      simp only [newListingStep, hdf]
      have hpiu : p.toInput.url = u := (dictFind_some hdf).2
      cases hdup : historyDupToday now p.toInput.url EvType.new d.history with
      | true =>
          rw [record_history_dup_eq now p.toInput EvType.new d hdup]
          exact ⟨h1, h2⟩
      | false =>
          obtain ⟨nd, hh, heq, hndu, hndd, hndr, hhu, hht, hhd⟩ :=
            record_history_new_eq now p.toInput d hdup
          rw [heq]
          constructor
          · obtain ⟨e, he, heu⟩ := h1
            by_cases hany :
                (d.delisted.any fun x => x.url == p.toInput.url) = true
            · rw [if_pos hany]
              refine ⟨e, List.mem_filter.mpr ⟨he, ?_⟩, heu⟩
              rw [heu, hpiu]
              exact bne_iff_ne.mpr (Ne.symm hne)
            · rw [if_neg hany]
              exact ⟨e, he, heu⟩
          · refine historyDupToday_append_false now U EvType.new d.history hh
              h2 (Or.inl ?_)
            rw [hhu, hpiu]
            exact hne

/-- The `newListingStep` at `U` itself inserts the restock-tagged event:
the delisted lookup succeeds, so the new-collection record carries
`is_restock = true`. -/
theorem newListing_phase_at_U (now : Nat) (f3 : List Product) (U : String)
    (d : DB) (hU3 : U ∈ f3.map Product.url)
    (h1 : ∃ e ∈ d.delisted, e.url = U)
    (h2 : historyDupToday now U EvType.new d.history = false) :
    ∃ e ∈ (newListingStep now f3 d U).new,
      e.url = U ∧ e.is_restock = some true ∧ e.date = now := by
  obtain ⟨p, hdf⟩ := dictFind_isSome hU3
  simp only [newListingStep, hdf]
  have hpiu : p.toInput.url = U := (dictFind_some hdf).2
  have hdup : historyDupToday now p.toInput.url EvType.new d.history
      = false := by rw [hpiu]; exact h2
  obtain ⟨nd, hh, heq, hndu, hndd, hndr, _, _, _⟩ :=
    record_history_new_eq now p.toInput d hdup
  rw [heq]
  refine ⟨nd, List.mem_append_right _ (List.mem_singleton.mpr rfl),
    ?_, ?_, hndd⟩
  · rw [hndu, hpiu]
  · rw [hndr]
    have hany : (d.delisted.any fun e => e.url == p.toInput.url) = true := by
      rw [hpiu]
      obtain ⟨e, he, heu⟩ := h1
      exact List.any_eq_true.mpr ⟨e, he, by simp [heu]⟩
    rw [hany]

/-- Any later `newListingStep` keeps the inserted restock-tagged event. -/
theorem newListing_phase_keep (now : Nat) (f3 : List Product) (U : String)
    (d : DB) (u : String)
    (hQ : ∃ e ∈ d.new, e.url = U ∧ e.is_restock = some true ∧ e.date = now) :
    ∃ e ∈ (newListingStep now f3 d u).new,
      e.url = U ∧ e.is_restock = some true ∧ e.date = now := by
  cases hdf : dictFind f3 u with
  | none =>
      simp only [newListingStep, hdf]
      exact hQ
  | some p =>
      simp only [newListingStep, hdf]
      cases hdup : historyDupToday now p.toInput.url EvType.new d.history with
      | true =>
          rw [record_history_dup_eq now p.toInput EvType.new d hdup]
          exact hQ
      | false =>
          obtain ⟨nd, hh, heq, _⟩ := record_history_new_eq now p.toInput d hdup
          rw [heq]
          obtain ⟨e, he, hprops⟩ := hQ
          exact ⟨e, List.mem_append_left _ he, hprops⟩

theorem newListingStep_products (now : Nat) (f3 : List Product) (d : DB)
    (u : String) :
    (newListingStep now f3 d u).products = d.products := by
  cases hdf : dictFind f3 u with
  | none => simp only [newListingStep, hdf]
  | some p =>
      simp only [newListingStep, hdf]
      exact (record_history_preserves_core now p.toInput EvType.new d).1

/-- Step 4 clears all delisted and resale records whose url is a new
listing: afterwards no record for the relisted url `U` remains. -/
theorem cleanRelisted_c6 (nlu : List String) (d : DB) (U : String)
    (hU : U ∈ nlu) :
    (∀ e ∈ (cleanRelisted nlu d).delisted, e.url ≠ U) ∧
    (∀ r ∈ (cleanRelisted nlu d).resale, r.url ≠ U) ∧
    (cleanRelisted nlu d).new = d.new ∧
    (cleanRelisted nlu d).products = d.products := by
  have hne : nlu.isEmpty = false := by
    cases nlu with
    | nil => cases hU
    | cons a l => rfl
  unfold cleanRelisted
  rw [if_neg (by simp [hne])]
  refine ⟨?_, ?_, rfl, rfl⟩
  · intro e he
    have hf := (List.mem_filter.mp he).2
    intro hcon
    rw [hcon, (contains_iff_mem nlu U).mpr hU] at hf
    simp at hf
  · intro r hr
    have hf := (List.mem_filter.mp hr).2
    intro hcon
    rw [hcon, (contains_iff_mem nlu U).mpr hU] at hf
    simp at hf

/-- Step 5 only inserts delisted events for urls of the previous snapshot,
so it cannot reintroduce the relisted url `U`. -/
theorem recordDelistedBatch_c6 (now : Nat) (urls : List String)
    (existing : List Product) (d : DB) (U : String)
    (hKold : U ∉ existing.map Product.url)
    (h1 : ∀ e ∈ d.delisted, e.url ≠ U) :
    (∀ e ∈ (recordDelistedBatch now urls existing d).delisted, e.url ≠ U) ∧
    (recordDelistedBatch now urls existing d).new = d.new ∧
    (recordDelistedBatch now urls existing d).resale = d.resale := by
  unfold recordDelistedBatch
  refine foldl_pres (P := fun dd : DB =>
    (∀ e ∈ dd.delisted, e.url ≠ U) ∧ dd.new = d.new ∧ dd.resale = d.resale)
    urls d ⟨h1, rfl, rfl⟩ ?_
  intro dd u hu hP
  obtain ⟨hA, hB, hC⟩ := hP
  cases hdf : dictFind existing u with
  | none =>
      simp only [delistedBatchStep, hdf]
      exact ⟨hA, hB, hC⟩
  | some op =>
      simp only [delistedBatchStep, hdf]
      refine ⟨?_, hB, hC⟩
      intro e he
      rcases List.mem_append.mp he with he2 | he2
      · exact hA e he2
      · rcases List.mem_singleton.mp he2 with rfl
        intro hcon
        exact hKold (List.mem_map.mpr ⟨op, (dictFind_some hdf).1, hcon⟩)

/-- Step 6 appends only to the `new` collection and the history ledger. -/
theorem recordNewBatch_c6 (now : Nat) (urls : List String)
    (pd : List Product) (d : DB) (U : String)
    (h1 : ∀ e ∈ d.delisted, e.url ≠ U)
    (hQ : ∃ e ∈ d.new, e.url = U ∧ e.is_restock = some true ∧ e.date = now) :
    (∀ e ∈ (recordNewBatch now urls pd d).delisted, e.url ≠ U) ∧
    (∃ e ∈ (recordNewBatch now urls pd d).new,
        e.url = U ∧ e.is_restock = some true ∧ e.date = now) ∧
    (recordNewBatch now urls pd d).resale = d.resale := by
  unfold recordNewBatch
  refine foldl_pres (P := fun dd : DB =>
    (∀ e ∈ dd.delisted, e.url ≠ U) ∧
    (∃ e ∈ dd.new, e.url = U ∧ e.is_restock = some true ∧ e.date = now) ∧
    dd.resale = d.resale) urls d ⟨h1, hQ, rfl⟩ ?_
  intro dd u hu hP
  obtain ⟨hA, hB, hC⟩ := hP
  cases hdf : dictFind pd u with
  | none =>
      simp only [newBatchStep, hdf]
      exact ⟨hA, hB, hC⟩
  | some np =>
      simp only [newBatchStep, hdf]
      refine ⟨hA, ?_, hC⟩
      obtain ⟨e, he, hprops⟩ := hB
      exact ⟨e, List.mem_append_left _ he, hprops⟩

/-- A product with no usable restock tag leaves the resale collection
unchanged. -/
theorem resaleStep_skip (now today : Nat) (rs : List RestockEntry)
    (p : Product) (h : resaleDatesOf today p.tags = []) :
    resaleStep now today rs p = rs := by
  unfold resaleStep
  simp only [resaleDatesOf] at h
  by_cases hrt : (p.tags.filter isResaleTag).isEmpty
  · simp [hrt]
  · simp [hrt, h]

/-- An upsert keyed by a url other than `U` cannot introduce an entry for
`U`. -/
theorem resaleStep_keeps_noU (now today : Nat) (rs : List RestockEntry)
    (p : Product) (U : String) (hp : p.url ≠ U)
    (h : ∀ r ∈ rs, r.url ≠ U) :
    ∀ r ∈ resaleStep now today rs p, r.url ≠ U := by
  cases hrt : (p.tags.filter isResaleTag).isEmpty with
  | true =>
      simp only [resaleStep, hrt, if_true]
      exact h
  | false =>
      cases hvd : validDatesOf today (p.tags.filter isResaleTag) with
      | nil =>
          simp only [resaleStep, hrt, Bool.false_eq_true, if_false, hvd]
          exact h
      | cons a t =>
          simp only [resaleStep, hrt, Bool.false_eq_true, if_false, hvd,
            upsertResale]
          by_cases hany : (rs.any fun r => r.url == p.url) = true
          · rw [if_pos hany]
            intro r hr
            rcases List.mem_map.mp hr with ⟨r0, hr0, rfl⟩
            by_cases hru : (r0.url == p.url) = true
            · rw [if_pos hru]
              exact hp
            · rw [if_neg hru]
              exact h r0 hr0
          · rw [if_neg hany]
            intro r hr
            rcases List.mem_append.mp hr with hr2 | hr2
            · exact h r hr2
            · rcases List.mem_singleton.mp hr2 with rfl
              exact hp

theorem process_resale_noU (now today : Nat) (pd : List Product)
    (rs : List RestockEntry) (U : String)
    (hre : ∀ p ∈ pd, p.url = U → resaleDatesOf today p.tags = [])
    (h : ∀ r ∈ rs, r.url ≠ U) :
    ∀ r ∈ process_resale_items now today pd rs, r.url ≠ U := by
  unfold process_resale_items
  refine foldl_pres (P := fun l : List RestockEntry => ∀ r ∈ l, r.url ≠ U)
    pd rs h ?_
  intro l p hp hPl
  by_cases hpU : p.url = U
  · rw [resaleStep_skip now today l p (hre p hp hpU)]
    exact hPl
  · exact resaleStep_keeps_noU now today l p U hpU hPl

/-- Availability syncing only rewrites the `available` field, so the
restock-tagged event survives with its url, tag and date intact. -/
theorem sync_keep_new (pd : List Product) (d : DB) (U : String) (now : Nat)
    (h : ∃ e ∈ d.new, e.url = U ∧ e.is_restock = some true ∧ e.date = now) :
    ∃ e ∈ (sync_product_availability pd d).new,
      e.url = U ∧ e.is_restock = some true ∧ e.date = now := by
  obtain ⟨e, he, h1, h2, h3⟩ := h
  unfold sync_product_availability
  refine ⟨_, List.mem_map_of_mem _ he, ?_⟩
  cases havail : availOf pd e.url with
  | none => exact ⟨h1, h2, h3⟩
  | some a => exact ⟨h1, h2, h3⟩

theorem clean_keep_new (now : Nat) (d : DB) (U : String)
    (h : ∃ e ∈ d.new, e.url = U ∧ e.is_restock = some true ∧ e.date = now) :
    ∃ e ∈ (clean_old_records now d).new,
      e.url = U ∧ e.is_restock = some true := by
  obtain ⟨e, he, h1, h2, h3⟩ := h
  refine ⟨e, List.mem_filter.mpr ⟨he, ?_⟩, h1, h2⟩
  rw [h3]
  simp only [Bool.not_eq_true', decide_eq_false_iff_not, Nat.not_lt]
  exact Nat.sub_le _ _

theorem clean_delisted_sub (now : Nat) (d : DB) (U : String)
    (h : ∀ e ∈ d.delisted, e.url ≠ U) :
    ∀ e ∈ (clean_old_records now d).delisted, e.url ≠ U := by
  intro e he
  exact h e (List.mem_of_mem_filter he)

/-- The `update_products` stage of the cycle for a relisted url `U`:
given that the incoming state carries the restock-tagged new event and that
`U` is absent from the previous snapshot but present in the verified
catalog, the committed state keeps the tagged event and holds no delisted
record and no resale entry for `U`. -/
theorem update_products_c6 (now today : Nat) (f3 : List Product) (d : DB)
    (ps0 : List Product) (U : String)
    (hne : f3.isEmpty = false)
    (hU3 : U ∈ f3.map Product.url)
    (hprod : d.products = ps0)
    (hUold : U ∉ ps0.map Product.url)
    (hQ : ∃ e ∈ d.new, e.url = U ∧ e.is_restock = some true ∧ e.date = now)
    (hre : ∀ p ∈ f3, p.url = U → resaleDatesOf today p.tags = []) :
    (∃ e ∈ (update_products now today f3 d).new,
        e.url = U ∧ e.is_restock = some true) ∧
    (∀ e ∈ (update_products now today f3 d).delisted, e.url ≠ U) ∧
    (∀ r ∈ (update_products now today f3 d).resale, r.url ≠ U) := by
  unfold update_products
  rw [if_neg (by simp [hne])]
  have hUold2 : U ∉ d.products.map Product.url := by
    rw [hprod]
    exact hUold
  have hUnlu : U ∈ newListingUrls f3 d := by
    unfold newListingUrls
    refine List.mem_filter.mpr ⟨mem_dedupUrls.mpr hU3, ?_⟩
    show (!(dedupUrls (d.products.map Product.url)).contains U) = true
    rw [contains_eq_false_of_not_mem (fun hm => hUold2 (mem_dedupUrls.mp hm))]
    rfl
  obtain ⟨hc1, hc2, hc3, hc4⟩ :=
    cleanRelisted_c6 (newListingUrls f3 d) d U hUnlu
  have hQ1 : ∃ e ∈ (cleanRelisted (newListingUrls f3 d) d).new,
      e.url = U ∧ e.is_restock = some true ∧ e.date = now := by
    rw [hc3]
    exact hQ
  obtain ⟨hd1, hd2, hd3⟩ := recordDelistedBatch_c6 now (delistedUrls f3 d)
    d.products (cleanRelisted (newListingUrls f3 d) d) U hUold2 hc1
  have hQ2 : ∃ e ∈ (recordDelistedBatch now (delistedUrls f3 d) d.products
      (cleanRelisted (newListingUrls f3 d) d)).new,
      e.url = U ∧ e.is_restock = some true ∧ e.date = now := by
    rw [hd2]
    exact hQ1
  obtain ⟨he1, he2, he3⟩ := recordNewBatch_c6 now (newListingUrls f3 d) f3
    (recordDelistedBatch now (delistedUrls f3 d) d.products
      (cleanRelisted (newListingUrls f3 d) d)) U hd1 hQ2
  have hres3 : ∀ r ∈ (recordNewBatch now (newListingUrls f3 d) f3
      (recordDelistedBatch now (delistedUrls f3 d) d.products
        (cleanRelisted (newListingUrls f3 d) d))).resale, r.url ≠ U := by
    rw [he3, hd3]
    exact hc2
  have hres4 := process_resale_noU now today f3 _ U hre hres3
  refine ⟨?_, ?_, ?_⟩
  · apply clean_keep_new
    apply sync_keep_new
    exact he2
  · apply clean_delisted_sub
    intro e he
    exact he1 e he
  · intro r hr
    exact hres4 r hr

/-- C6: for every cycle with a non-empty baseline and three agreeing
non-empty fetches in which url `U` is a verified new listing (present in
the catalog, absent from the snapshot) that has a prior delisted record —
with no `'new'` event for `U` recorded earlier today, and the relisted
product carrying no usable restock tag — the committed state contains a
new-collection HistoryEvent for `U` tagged `is_restock = true`, and the
delisted-collection records and the RestockEntry for `U` are removed. -/
theorem c6_relisting_tags_restock (now today : Nat) (probe : String → Bool)
    (f1 f2 f3 : List Product) (db : DB) (U : String)
    (hdbne : db.products ≠ [])
    (h1 : f1 ≠ []) (h2 : f2 ≠ []) (h3 : f3 ≠ [])
    (hc : (urlSetEq (f2.map Product.url) (f1.map Product.url) &&
           urlSetEq (f3.map Product.url) (f1.map Product.url)) = true)
    (hU1 : U ∈ f1.map Product.url)
    (hUold : U ∉ db.products.map Product.url)
    (hdel : ∃ e ∈ db.delisted, e.url = U)
    (hnodup : historyDupToday now U EvType.new db.history = false)
    (hre : ∀ p ∈ f3, p.url = U → resaleDatesOf today p.tags = []) :
    (∃ e ∈ ((check_updates now today probe f1 f2 f3 db).2).new,
        e.url = U ∧ e.is_restock = some true) ∧
    (∀ e ∈ ((check_updates now today probe f1 f2 f3 db).2).delisted,
        e.url ≠ U) ∧
    (∀ r ∈ ((check_updates now today probe f1 f2 f3 db).2).resale,
        r.url ≠ U) := by
  have e1 : f1.isEmpty = false := by
    cases f1 with
    | nil => exact absurd rfl h1
    | cons a l => rfl
  have e2 : f2.isEmpty = false := by
    cases f2 with
    | nil => exact absurd rfl h2
    | cons a l => rfl
  have e3 : f3.isEmpty = false := by
    cases f3 with
    | nil => exact absurd rfl h3
    | cons a l => rfl
  have ep : db.products.isEmpty = false := by
    cases hp : db.products with
    | nil => exact absurd hp hdbne
    | cons a l => rfl
  have hg : ((urlSetEq (f1.map Product.url) (f1.map Product.url) &&
      urlSetEq (f2.map Product.url) (f1.map Product.url)) &&
      urlSetEq (f3.map Product.url) (f1.map Product.url)) = true := by
    rw [urlSetEq_self, Bool.true_and]
    exact hc
  have hred : (check_updates now today probe f1 f2 f3 db).2
      = update_products now today f3
          (recordNewListings now
            ((dedupUrls (f1.map Product.url)).filter
              (fun u => !(dedupUrls (db.products.map Product.url)).contains u))
            f3
            (probeMissing now probe
              ((dedupUrls (db.products.map Product.url)).filter
                (fun u => !(dedupUrls (f1.map Product.url)).contains u))
              db.products ([], db)).2) := by
    simp only [check_updates, e1, e2, e3, ep, hg, Bool.or_self,
      Bool.false_eq_true, if_false, Bool.not_true]
  rw [hred]
  have hc3 : urlSetEq (f3.map Product.url) (f1.map Product.url) = true := by
    rw [Bool.and_eq_true] at hc
    exact hc.2
  have hU3 : U ∈ f3.map Product.url := urlSetEq_mem_left hc3 hU1
  -- phase A: the probing loop
  have hPP : (∃ e ∈ ((probeMissing now probe
        ((dedupUrls (db.products.map Product.url)).filter
          (fun u => !(dedupUrls (f1.map Product.url)).contains u))
        db.products ([], db)).2).delisted, e.url = U) ∧
      historyDupToday now U EvType.new ((probeMissing now probe
        ((dedupUrls (db.products.map Product.url)).filter
          (fun u => !(dedupUrls (f1.map Product.url)).contains u))
        db.products ([], db)).2).history = false ∧
      ((probeMissing now probe
        ((dedupUrls (db.products.map Product.url)).filter
          (fun u => !(dedupUrls (f1.map Product.url)).contains u))
        db.products ([], db)).2).products = db.products := by
    unfold probeMissing
    refine foldl_pres (P := fun acc : List (String × String) × DB =>
      (∃ e ∈ acc.2.delisted, e.url = U) ∧
      historyDupToday now U EvType.new acc.2.history = false ∧
      acc.2.products = db.products) _ ([], db) ⟨hdel, hnodup, rfl⟩ ?_
    intro acc u hu hP
    obtain ⟨hA, hB, hC⟩ := hP
    unfold probeStep
    by_cases hpu : probe u = true
    · rw [if_pos hpu]
      exact ⟨hA, hB, hC⟩
    · rw [if_neg hpu]
      refine ⟨(probe_phase_step now _ U acc.2 hA hB).1,
        (probe_phase_step now _ U acc.2 hA hB).2, ?_⟩
      rw [(record_history_preserves_core now _ EvType.delisted acc.2).1]
      exact hC
  -- phase B: recording the verified new listings
  have hcontF : (dedupUrls (db.products.map Product.url)).contains U
      = false :=
    contains_eq_false_of_not_mem (fun hm => hUold (mem_dedupUrls.mp hm))
  have hUvnu : U ∈ (dedupUrls (f1.map Product.url)).filter
      (fun u => !(dedupUrls (db.products.map Product.url)).contains u) := by
    refine List.mem_filter.mpr ⟨mem_dedupUrls.mpr hU1, ?_⟩
    show (!(dedupUrls (db.products.map Product.url)).contains U) = true
    rw [hcontF]
    rfl
  obtain ⟨l1, l2, hsplit, hUl1⟩ := exists_first_split hUvnu
  rw [hsplit]
  have hQQ : (∃ e ∈ (recordNewListings now (l1 ++ U :: l2) f3
        (probeMissing now probe
          ((dedupUrls (db.products.map Product.url)).filter
            (fun u => !(dedupUrls (f1.map Product.url)).contains u))
          db.products ([], db)).2).new,
        e.url = U ∧ e.is_restock = some true ∧ e.date = now) ∧
      (recordNewListings now (l1 ++ U :: l2) f3
        (probeMissing now probe
          ((dedupUrls (db.products.map Product.url)).filter
            (fun u => !(dedupUrls (f1.map Product.url)).contains u))
          db.products ([], db)).2).products = db.products := by
    unfold recordNewListings
    rw [List.foldl_append, List.foldl_cons]
    have hPl1 : (∃ e ∈ (List.foldl (newListingStep now f3)
          (probeMissing now probe
            ((dedupUrls (db.products.map Product.url)).filter
              (fun u => !(dedupUrls (f1.map Product.url)).contains u))
            db.products ([], db)).2 l1).delisted, e.url = U) ∧
        historyDupToday now U EvType.new (List.foldl (newListingStep now f3)
          (probeMissing now probe
            ((dedupUrls (db.products.map Product.url)).filter
              (fun u => !(dedupUrls (f1.map Product.url)).contains u))
            db.products ([], db)).2 l1).history = false ∧
        (List.foldl (newListingStep now f3)
          (probeMissing now probe
            ((dedupUrls (db.products.map Product.url)).filter
              (fun u => !(dedupUrls (f1.map Product.url)).contains u))
            db.products ([], db)).2 l1).products = db.products := by
      refine foldl_pres (P := fun dd : DB =>
        (∃ e ∈ dd.delisted, e.url = U) ∧
        historyDupToday now U EvType.new dd.history = false ∧
        dd.products = db.products) l1 _ ⟨hPP.1, hPP.2.1, hPP.2.2⟩ ?_
      intro dd u hu hP
      obtain ⟨hA, hB, hC⟩ := hP
      have hune : u ≠ U := fun hcu => hUl1 (hcu ▸ hu)
      refine ⟨(newListing_phase_pres now f3 U dd u hune hA hB).1,
        (newListing_phase_pres now f3 U dd u hune hA hB).2, ?_⟩
      rw [newListingStep_products]
      exact hC
    refine foldl_pres (P := fun dd : DB =>
      (∃ e ∈ dd.new, e.url = U ∧ e.is_restock = some true ∧ e.date = now) ∧
      dd.products = db.products) l2 _ ⟨?_, ?_⟩ ?_
    · exact newListing_phase_at_U now f3 U _ hU3 hPl1.1 hPl1.2.1
    · rw [newListingStep_products]
      exact hPl1.2.2
    · intro dd u hu hP
      obtain ⟨hA, hB⟩ := hP
      refine ⟨newListing_phase_keep now f3 U dd u hA, ?_⟩
      rw [newListingStep_products]
      exact hB
  exact update_products_c6 now today f3 _ db.products U e3 hU3 hQQ.2 hUold
    hQQ.1 hre

/-- C6 witness: product `U`, delisted earlier (delisted record and
RestockEntry present), reappears in the verified catalog — the cycle leaves
a `new` event for `U` with `is_restock = true` and no delisted or resale
record for `U`. -/
theorem c6_relisting_tags_restock_witness :
    (∃ e ∈ ((check_updates 14400 20250601 probeFalse [prodA, prodU]
        [prodA, prodU] [prodA, prodU] dbRelist).2).new,
        e.url = "U" ∧ e.is_restock = some true) ∧
    (∀ e ∈ ((check_updates 14400 20250601 probeFalse [prodA, prodU]
        [prodA, prodU] [prodA, prodU] dbRelist).2).delisted, e.url ≠ "U") ∧
    (∀ r ∈ ((check_updates 14400 20250601 probeFalse [prodA, prodU]
        [prodA, prodU] [prodA, prodU] dbRelist).2).resale, r.url ≠ "U") :=
  c6_relisting_tags_restock 14400 20250601 probeFalse [prodA, prodU]
    [prodA, prodU] [prodA, prodU] dbRelist "U" (by decide) (by decide)
    (by decide) (by decide) (by decide) (by decide) (by decide) (by decide)
    (by decide) (by decide)

end Chiikawa
